import Mathlib

/-!
Verification of the bbcrss news-ingestion service.

This file gives a shallow embedding, in Lean 4, of the parts of the Go
source that the specification talks about:

* the pagination model (`Filters`, `Metadata`, `calculateMetadata`,
  `Filters.validate`, `Filters.limit`, `Filters.offset`) from models.go;
* the retry control flow of `Service.ParsingJob` from service.go;
* the per-item save loop of `Service.ParsingJob` (conflict handling,
  publish-on-create) from service.go;
* the fetch operation `Parser.getContents` from parser.go;
* the enrichment extractor `Parser.extractEnrichments` and the worker
  step `Parser.Enrich` / `Service.EnrichNewsItem` from parser.go and
  service.go.

Go machine integers (`int`, 64-bit two's complement on the target
platform) are modelled as `Int` together with an explicit wrap-around
operation `wrap64`; Go's `math.MaxInt` is `maxInt64`.  Fallible Go code
returning `(T, error)` is modelled with `Except String T`, errors being
the format strings the code produces.
-/

deriving instance DecidableEq for Except

/-- Two's complement wrap-around of 64-bit signed integer arithmetic:
the value a Go `int` variable holds after an arithmetic operation whose
mathematical result is `x`. -/
def wrap64 (x : Int) : Int :=
  (x + 2 ^ 63) % 2 ^ 64 - 2 ^ 63

/-- `math.MaxInt` on a 64-bit platform. -/
def maxInt64 : Int := 2 ^ 63 - 1

/-- `x` is representable as a 64-bit signed integer. -/
def InRange64 (x : Int) : Prop := -(2 ^ 63) ≤ x ∧ x < 2 ^ 63

instance (x : Int) : Decidable (InRange64 x) := by
  unfold InRange64; infer_instance

/-- Filters for news items (models.go): page number and page size as
requested by the caller. -/
structure Filters where
  page : Int
  pageSize : Int
deriving Repr, DecidableEq

/-- The package-level `defaultFilters` value (models.go). -/
def defaultFilters : Filters := { page := 1, pageSize := 5 }

/-- `Filters.validate` (models.go): each field that is `< 1` is replaced
by the corresponding field of the supplied default filters; the Go
method mutates the receiver, modelled here by returning the updated
value. -/
def Filters.validate (f : Filters) (d : Filters) : Filters :=
  { page := if f.page < 1 then d.page else f.page,
    pageSize := if f.pageSize < 1 then d.pageSize else f.pageSize }

/-- `Filters.limit` (models.go): the SQL LIMIT is the page size. -/
def Filters.limit (f : Filters) : Int := f.pageSize

/-- `Filters.offset` (models.go):
`offset := (f.Page - 1) * f.PageSize; return min(offset, math.MaxInt)`.
The subtraction and multiplication are Go `int` operations, so each
wraps; `min` is Go's builtin two-argument minimum. -/
def Filters.offset (f : Filters) : Int :=
  min (wrap64 (wrap64 (f.page - 1) * f.pageSize)) maxInt64

/-- Pagination metadata (models.go). -/
structure Metadata where
  currentPage : Int
  pageSize : Int
  firstPage : Int
  lastPage : Int
  totalRecords : Int
deriving Repr, DecidableEq

/-- The zero value `Metadata\x7b\x7d` of the Go struct. -/
def Metadata.zero : Metadata := ⟨0, 0, 0, 0, 0⟩

/-- Round-half-to-even of a rational to an integer: the tie-breaking
rule of IEEE 754 round-to-nearest. -/
def rndEven (y : ℚ) : Int :=
  if Int.fract y < 1 / 2 then ⌊y⌋
  else if 1 / 2 < Int.fract y then ⌊y⌋ + 1
  else if ⌊y⌋ % 2 = 0 then ⌊y⌋ else ⌊y⌋ + 1

/-- Floor of the binary logarithm of a positive rational, computed from
the bit lengths of numerator and denominator with one correction
step. -/
def floorLog2 (x : ℚ) : Int :=
  if (2 : ℚ) ^ ((Nat.log 2 x.num.toNat : Int) - (Nat.log 2 x.den : Int)) ≤ x then
    (Nat.log 2 x.num.toNat : Int) - (Nat.log 2 x.den : Int)
  else (Nat.log 2 x.num.toNat : Int) - (Nat.log 2 x.den : Int) - 1

/-- Rounding of a positive rational to the nearest binary64 value
(53 significant bits, ties to even): the significand is scaled into
`[2^52, 2^53)`, rounded to an integer half-to-even, and scaled back. -/
def round64Pos (x : ℚ) : ℚ :=
  (rndEven (x * 2 ^ (52 - floorLog2 x)) : ℚ) * 2 ^ (floorLog2 x - 52)

/-- The binary64 value nearest to `x` (round-to-nearest-even), extended
to nonpositive inputs by symmetry; subnormals and overflow are outside
the range produced by this program's inputs and are not modelled. -/
def round64 (x : ℚ) : ℚ :=
  if x < 0 then -round64Pos (-x) else if x = 0 then 0 else round64Pos x

/-- `int(math.Ceil(float64(a) / float64(b)))` from `calculateMetadata`
(models.go): each Go int is converted to binary64 (`round64` of its
exact value), the float64 division is the correctly rounded quotient
(`round64` of the exact quotient of the two binary64 values), and
`math.Ceil` followed by the int conversion is the exact ceiling —
`math.Ceil` of a finite float64 is exact, and the results in the range
exercised here are exactly representable and fit an int64. -/
def ceilDiv (a b : Int) : Int :=
  ⌈round64 (round64 (a : ℚ) / round64 (b : ℚ))⌉

/-- `calculateMetadata` (models.go): all-zero metadata when there are no
records, otherwise current/first/last page, page size and total. -/
def calculateMetadata (totalRecords page pageSize : Int) : Metadata :=
  if totalRecords = 0 then Metadata.zero
  else
    { currentPage := page,
      pageSize := pageSize,
      firstPage := 1,
      lastPage := ceilDiv totalRecords pageSize,
      totalRecords := totalRecords }

/-- A news item (models.go); `published` models the `time.Time` field as
an opaque timestamp. -/
structure NewsItem where
  id : Int
  title : String
  link : String
  published : Int
  description : String
  image : String
deriving Repr, DecidableEq

/-- Outcome of one `s.Parser.GetNews(ctx)` call at the top of a
`Service.ParsingJob` cycle (service.go): either a decoded list of items
or a fetch/parse failure. -/
inductive FetchResult where
  | success (items : List NewsItem) : FetchResult
  | failure : FetchResult
deriving Repr, DecidableEq

/-- One round of the retry control flow of `Service.ParsingJob`
(service.go): on a failed `GetNews` the job first checks the counter —
if it already exceeds the limit the job returns (`none`, without
incrementing); otherwise the counter is incremented and the job backs
off and continues.  On success the counter resets to zero. -/
def parsingStep (retry limitv : Nat) : FetchResult → Option Nat
  | .failure => if retry > limitv then none else some (retry + 1)
  | .success _ => some 0

/-- The sequence of `GetNews` cycles that `Service.ParsingJob` actually
attempts, given the stream `rs` of outcomes the environment would
produce: the loop consumes outcomes until `parsingStep` terminates the
job (the terminating attempt itself is included). -/
def attemptedCycles (retry limitv : Nat) : List FetchResult → List FetchResult
  | [] => []
  | r :: rs =>
    match parsingStep retry limitv r with
    | none => [r]
    | some retry2 => r :: attemptedCycles retry2 limitv rs

/-- Number of consecutive failures at the head of a cycle list. -/
def leadFails : List FetchResult → Nat
  | [] => 0
  | .failure :: rs => leadFails rs + 1
  | .success _ :: _ => 0

/-- Longest run of consecutive failures anywhere in a cycle list. -/
def maxFailStreak : List FetchResult → Nat
  | [] => 0
  | r :: rs => max (leadFails (r :: rs)) (maxFailStreak rs)

/-- Outcome of one `s.Storage.CreateNews(ctx, &item)` call inside the
save loop of `Service.ParsingJob` (service.go). -/
inductive CreateResult where
  | ok : CreateResult
  | alreadyExists : CreateResult
  | otherError : CreateResult
deriving Repr, DecidableEq

/-- The save loop of `Service.ParsingJob` (service.go), left to right
over the decoded candidates paired with the store's response to each
create-write: `ErrAlreadyExists` increments `skipped` and continues,
any other error just continues, success increments `saved` and then
publishes the item's link to the queue.  Returns
`(saved, skipped, published links)`. -/
def saveLoopAux (saved skipped : Nat) (published : List String) :
    List (NewsItem × CreateResult) → Nat × Nat × List String
  | [] => (saved, skipped, published)
  | (item, res) :: rest =>
    match res with
    | .alreadyExists => saveLoopAux saved (skipped + 1) published rest
    | .otherError => saveLoopAux saved skipped published rest
    | .ok => saveLoopAux (saved + 1) skipped (published ++ [item.link]) rest

/-- The save loop started with `saved, skipped := 0, 0` and nothing
published yet. -/
def saveLoop (l : List (NewsItem × CreateResult)) : Nat × Nat × List String :=
  saveLoopAux 0 0 [] l

/-- What the environment does with the single HTTP request issued by
`Parser.getContents` (parser.go): request construction may fail, the
transport may fail, or a response arrives with a status code and a body
read that either fails or yields the body. -/
inductive HttpOutcome where
  | requestError (cause : String) : HttpOutcome
  | transportError (cause : String) : HttpOutcome
  | response (statusCode : Int) (bodyRead : Except String String) : HttpOutcome
deriving Repr

/-- `Parser.getContents` (parser.go): wraps a request-creation or
transport failure, rejects any response whose status code differs from
`http.StatusOK` (200), wraps a body-read failure, and otherwise returns
the raw body. -/
def getContents : HttpOutcome → Except String String
  | .requestError c => .error ("failed to create request: " ++ c)
  | .transportError c => .error ("failed to get feed: " ++ c)
  | .response status bodyRead =>
    if status ≠ 200 then .error ("unexpected status code: " ++ toString status)
    else
      match bodyRead with
      | .error c => .error ("failed to read body: " ++ c)
      | .ok body => .ok body

/-- One piece of the enrichment regular expressions of `enrichmentTable`
(parser.go).  Both patterns are concatenations of case-insensitive
literals (the `(?i)` flag), greedy one-or-more negated character classes
`[^c]+`, and one captured greedy class `([^c]+)`. -/
inductive RexPiece where
  | lit (w : List Char) : RexPiece
  | classPlus (c : Char) : RexPiece
  | capturePlus (c : Char) : RexPiece
deriving Repr, DecidableEq

/-- Case folding used for the case-insensitive literals. -/
def lowerList (s : List Char) : List Char := s.map Char.toLower

/-- Backtracking loop for a greedy `[^c]+`: try consuming `k` chars,
then `k - 1`, ... down to one char, matching the rest of the pattern
(`f`) on each remainder; when `capFlag` is set the consumed chars become
the reported capture. -/
def tryDrops (capFlag : Bool) (f : List Char → Option (Option (List Char)))
    (s : List Char) : Nat → Option (Option (List Char))
  | 0 => none
  | k + 1 =>
    match f (s.drop (k + 1)) with
    | some res => some (if capFlag then some (s.take (k + 1)) else res)
    | none => tryDrops capFlag f s k

/-- Matching a piece sequence at the start of `s` (trailing input is
ignored, as a regex match is a substring match): `none` = no match,
`some cap` = match, with `cap` the submatch of the capture group if one
participated.  Literals compare case-insensitively; `[^c]+` is greedy
with backtracking, mirroring the Go regexp engine's leftmost-first
preference on these patterns. -/
def matchSeq : List RexPiece → List Char → Option (Option (List Char))
  | [], _ => some none
  | .lit w :: ps, s =>
    if lowerList (s.take w.length) = lowerList w then matchSeq ps (s.drop w.length)
    else none
  | .classPlus c :: ps, s =>
    tryDrops false (fun t => matchSeq ps t) s ((s.takeWhile (fun x => x ≠ c)).length)
  | .capturePlus c :: ps, s =>
    tryDrops true (fun t => matchSeq ps t) s ((s.takeWhile (fun x => x ≠ c)).length)

/-- `regexp.FindStringSubmatch` for a single-capture pattern: scan start
positions left to right and report the capture of the leftmost match
(`none` when the pattern matches nowhere). -/
def findCapture (ps : List RexPiece) : List Char → Option (List Char)
  | [] => (matchSeq ps []).bind (fun c => c)
  | ch :: rest =>
    match matchSeq ps (ch :: rest) with
    | some cap => cap
    | none => findCapture ps rest

/-- The `description` pattern of `enrichmentTable` (parser.go):
the regular expression
`(?i)<meta[^>]+name="description"[^>]+content="([^"]+)"`. -/
def descriptionPattern : List RexPiece :=
  [ .lit "<meta".toList,
    .classPlus '>',
    .lit "name=\"description\"".toList,
    .classPlus '>',
    .lit "content=\"".toList,
    .capturePlus '"',
    .lit "\"".toList ]

/-- The `image` pattern of `enrichmentTable` (parser.go):
the regular expression
`(?i)<meta[^>]+property="og:image"[^>]+content="([^"]+)"`. -/
def imagePattern : List RexPiece :=
  [ .lit "<meta".toList,
    .classPlus '>',
    .lit "property=\"og:image\"".toList,
    .classPlus '>',
    .lit "content=\"".toList,
    .capturePlus '"',
    .lit "\"".toList ]

/-- `enrichmentTable` (parser.go) as an association list; the Go map's
iteration order is arbitrary, which is why order-independence of the
result is proved separately. -/
def enrichmentTable : List (String × List RexPiece) :=
  [("description", descriptionPattern), ("image", imagePattern)]

/-- The loop body of `Parser.extractEnrichments` (parser.go) over a
given table: for each named pattern, record the captured submatch when
the pattern matches the document. -/
def extractEnrichmentsWith (table : List (String × List RexPiece))
    (html : String) : List (String × String) :=
  table.filterMap (fun nr =>
    (findCapture nr.2 html.toList).map (fun cap => (nr.1, String.mk cap)))

/-- `Parser.extractEnrichments` (parser.go): the enrichment mapping
together with the returned Go error, which is literally `nil`. -/
def extractEnrichments (html : String) : List (String × String) × Option String :=
  (extractEnrichmentsWith enrichmentTable html, none)

/-- Go map indexing `m["key"]`: the stored value, or the zero value `""`
when the key is absent. -/
def mapIndex (m : List (String × String)) (key : String) : String :=
  match m.lookup key with
  | some v => v
  | none => ""

/-- `Parser.GetEnrichments` (parser.go): fetch the linked page (the
outcome of that fetch is the `HttpOutcome` argument), then extract
enrichments from the body, wrapping either failure. -/
def GetEnrichments (o : HttpOutcome) : Except String (List (String × String)) :=
  match getContents o with
  | .error e => .error ("failed to get enrichments: " ++ e)
  | .ok body =>
    match extractEnrichments body with
    | (_, some e) => .error ("failed to extract enrichments: " ++ e)
    | (m, none) => .ok m

/-- `Parser.Enrich` (parser.go): on a successful fetch the item's
`Description` and `Image` fields are assigned `enrichments["description"]`
and `enrichments["image"]` (Go map indexing, so an absent key assigns the
empty string); returns the updated item and `len(enrichments)`. -/
def Enrich (item : NewsItem) (o : HttpOutcome) : Except String (NewsItem × Nat) :=
  match GetEnrichments o with
  | .error e => .error ("failed to get enrichments: " ++ e)
  | .ok enrichments =>
    .ok ({ item with
            description := mapIndex enrichments "description",
            image := mapIndex enrichments "image" },
         enrichments.length)

/-- The row-level effect of `Storage.SaveNewsItem` (storage.go): the SQL
`UPDATE news SET title = $1, link = $2, description = $3, image = $4
WHERE id = $5` overwrites those four columns of the row with the item's
current field values. -/
def saveNewsItemRow (row item : NewsItem) : NewsItem :=
  { row with
      title := item.title,
      link := item.link,
      description := item.description,
      image := item.image }

/-- `Service.EnrichNewsItem` (service.go): load the stored item (here
given directly as `stored`), run `Parser.Enrich` on it with the fetch
outcome `o` for its link, and persist the enriched item with
`Storage.SaveNewsItem`; a failed fetch aborts before the store update.
Returns the stored row after the step. -/
def EnrichNewsItem (stored : NewsItem) (o : HttpOutcome) : Except String NewsItem :=
  match Enrich stored o with
  | .error e => .error ("failed to enrich news: " ++ e)
  | .ok (enriched, _) => .ok (saveNewsItemRow stored enriched)

/-! ### Arithmetic helper lemmas -/

theorem wrap64_eq_self {x : Int} (h : InRange64 x) : wrap64 x = x := by
  obtain ⟨h1, h2⟩ := h
  unfold wrap64
  rw [Int.emod_eq_of_lt (by omega) (by omega)]
  omega

theorem wrap64_mem_range (x : Int) : InRange64 (wrap64 x) := by
  unfold InRange64 wrap64
  have h0 : 0 ≤ (x + 2 ^ 63) % 2 ^ 64 := Int.emod_nonneg _ (by norm_num)
  have h1 : (x + 2 ^ 63) % 2 ^ 64 < 2 ^ 64 := Int.emod_lt_of_pos _ (by norm_num)
  omega

theorem rndEven_err (y : ℚ) : |(rndEven y : ℚ) - y| ≤ 1 / 2 := by
  have h0 : 0 ≤ Int.fract y := Int.fract_nonneg y
  have h1 : Int.fract y < 1 := Int.fract_lt_one y
  have hfl : (⌊y⌋ : ℚ) = y - Int.fract y := by
    unfold Int.fract
    ring
  unfold rndEven
  split_ifs with hc1 hc2 hc3 <;> rw [abs_le] <;> constructor <;> push_cast <;> linarith

theorem rndEven_intCast (m : Int) : rndEven (m : ℚ) = m := by
  unfold rndEven
  rw [Int.fract_intCast]
  norm_num [Int.floor_intCast]

theorem floorLog2_spec (x : ℚ) (hx : 0 < x) :
    (2 : ℚ) ^ floorLog2 x ≤ x ∧ x < (2 : ℚ) ^ (floorLog2 x + 1) := by
  have hnum : 0 < x.num := Rat.num_pos.mpr hx
  have hn0 : x.num.toNat ≠ 0 := by omega
  have hd0 : x.den ≠ 0 := x.den_nz
  have hdq : (0 : ℚ) < (x.den : ℚ) := by
    exact_mod_cast Nat.pos_of_ne_zero hd0
  have hxeq : x = (x.num.toNat : ℚ) / (x.den : ℚ) := by
    have h1 : ((x.num.toNat : ℕ) : ℤ) = x.num := Int.toNat_of_nonneg hnum.le
    conv_lhs => rw [← Rat.num_div_den x, ← h1]
    push_cast
    ring
  have ha1 : (2 : ℚ) ^ ((Nat.log 2 x.num.toNat : ℕ) : ℤ) ≤ (x.num.toNat : ℚ) := by
    rw [zpow_natCast]
    exact_mod_cast Nat.pow_log_le_self 2 hn0
  have ha2 : (x.num.toNat : ℚ) < (2 : ℚ) ^ (((Nat.log 2 x.num.toNat : ℕ) : ℤ) + 1) := by
    rw [show ((Nat.log 2 x.num.toNat : ℕ) : ℤ) + 1 =
        ((Nat.log 2 x.num.toNat + 1 : ℕ) : ℤ) by push_cast; ring, zpow_natCast]
    exact_mod_cast Nat.lt_pow_succ_log_self (by norm_num) x.num.toNat
  have hb1 : (2 : ℚ) ^ ((Nat.log 2 x.den : ℕ) : ℤ) ≤ (x.den : ℚ) := by
    rw [zpow_natCast]
    exact_mod_cast Nat.pow_log_le_self 2 hd0
  have hb2 : (x.den : ℚ) < (2 : ℚ) ^ (((Nat.log 2 x.den : ℕ) : ℤ) + 1) := by
    rw [show ((Nat.log 2 x.den : ℕ) : ℤ) + 1 =
        ((Nat.log 2 x.den + 1 : ℕ) : ℤ) by push_cast; ring, zpow_natCast]
    exact_mod_cast Nat.lt_pow_succ_log_self (by norm_num) x.den
  have hlow : (2 : ℚ) ^ ((Nat.log 2 x.num.toNat : ℤ) - (Nat.log 2 x.den : ℤ) - 1) < x := by
    conv_rhs => rw [hxeq]
    rw [lt_div_iff₀ hdq]
    calc (2 : ℚ) ^ ((Nat.log 2 x.num.toNat : ℤ) - (Nat.log 2 x.den : ℤ) - 1) * (x.den : ℚ)
        < (2 : ℚ) ^ ((Nat.log 2 x.num.toNat : ℤ) - (Nat.log 2 x.den : ℤ) - 1) *
          (2 : ℚ) ^ (((Nat.log 2 x.den : ℕ) : ℤ) + 1) :=
          mul_lt_mul_of_pos_left hb2 (zpow_pos (by norm_num) _)
      _ = (2 : ℚ) ^ ((Nat.log 2 x.num.toNat : ℕ) : ℤ) := by
          rw [← zpow_add₀ (two_ne_zero (α := ℚ))]
          congr 1
          omega
      _ ≤ (x.num.toNat : ℚ) := ha1
  have hhigh : x < (2 : ℚ) ^ ((Nat.log 2 x.num.toNat : ℤ) - (Nat.log 2 x.den : ℤ) + 1) := by
    conv_lhs => rw [hxeq]
    rw [div_lt_iff₀ hdq]
    calc (x.num.toNat : ℚ)
        < (2 : ℚ) ^ (((Nat.log 2 x.num.toNat : ℕ) : ℤ) + 1) := ha2
      _ = (2 : ℚ) ^ ((Nat.log 2 x.num.toNat : ℤ) - (Nat.log 2 x.den : ℤ) + 1) *
          (2 : ℚ) ^ ((Nat.log 2 x.den : ℕ) : ℤ) := by
          rw [← zpow_add₀ (two_ne_zero (α := ℚ))]
          congr 1
          omega
      _ ≤ (2 : ℚ) ^ ((Nat.log 2 x.num.toNat : ℤ) - (Nat.log 2 x.den : ℤ) + 1) * (x.den : ℚ) :=
          mul_le_mul_of_nonneg_left hb1 (zpow_pos (by norm_num) _).le
  unfold floorLog2
  split_ifs with hcc
  · exact ⟨hcc, hhigh⟩
  · refine ⟨hlow.le, ?_⟩
    rw [sub_add_cancel]
    exact lt_of_not_le hcc

theorem floorLog2_eq (x : ℚ) (hx : 0 < x) (c : Int)
    (h1 : (2 : ℚ) ^ c ≤ x) (h2 : x < (2 : ℚ) ^ (c + 1)) : floorLog2 x = c := by
  obtain ⟨g1, g2⟩ := floorLog2_spec x hx
  have t1 : floorLog2 x < c + 1 := by
    by_contra hcon
    push_neg at hcon
    exact absurd (le_trans (zpow_le_zpow_right₀ (by norm_num) hcon) g1) (not_le.mpr h2)
  have t2 : c < floorLog2 x + 1 := by
    by_contra hcon
    push_neg at hcon
    exact absurd (le_trans (zpow_le_zpow_right₀ (by norm_num) hcon) h1) (not_le.mpr g2)
  omega

theorem round64Pos_err (x : ℚ) :
    |round64Pos x - x| ≤ (2 : ℚ) ^ (floorLog2 x - 53) := by
  have hsplit : round64Pos x - x =
      ((rndEven (x * 2 ^ (52 - floorLog2 x)) : ℚ) - x * 2 ^ (52 - floorLog2 x)) *
        2 ^ (floorLog2 x - 52) := by
    unfold round64Pos
    rw [sub_mul, mul_assoc, ← zpow_add₀ (two_ne_zero (α := ℚ)),
      show (52 - floorLog2 x) + (floorLog2 x - 52) = 0 by ring, zpow_zero, mul_one]
  rw [hsplit, abs_mul,
    abs_of_pos (zpow_pos (show (0 : ℚ) < 2 by norm_num) (floorLog2 x - 52))]
  calc |(rndEven (x * 2 ^ (52 - floorLog2 x)) : ℚ) - x * 2 ^ (52 - floorLog2 x)| *
        2 ^ (floorLog2 x - 52)
      ≤ (1 / 2) * 2 ^ (floorLog2 x - 52) :=
        mul_le_mul_of_nonneg_right (rndEven_err _)
          (zpow_pos (show (0 : ℚ) < 2 by norm_num) (floorLog2 x - 52)).le
    _ = 2 ^ (floorLog2 x - 53) := by
        rw [show floorLog2 x - 53 = (floorLog2 x - 52) + (-1) by ring,
          zpow_add₀ (two_ne_zero (α := ℚ)), zpow_neg, zpow_one]
        ring

theorem round64Pos_eq_self (x : ℚ) (m : Int)
    (hm : x * 2 ^ (52 - floorLog2 x) = (m : ℚ)) : round64Pos x = x := by
  unfold round64Pos
  rw [hm, rndEven_intCast, ← hm, mul_assoc, ← zpow_add₀ (two_ne_zero (α := ℚ)),
    show (52 - floorLog2 x) + (floorLog2 x - 52) = 0 by ring, zpow_zero, mul_one]

theorem round64_of_pos (x : ℚ) (hx : 0 < x) : round64 x = round64Pos x := by
  unfold round64
  rw [if_neg (by linarith), if_neg hx.ne']

theorem round64_intCast (n : Int) (h1 : 1 ≤ n) (h2 : n < 2 ^ 53) :
    round64 (n : ℚ) = n := by
  have hpos : (0 : ℚ) < (n : ℚ) := by
    have : (1 : ℚ) ≤ (n : ℚ) := by exact_mod_cast h1
    linarith
  rw [round64_of_pos _ hpos]
  have hk2 : floorLog2 (n : ℚ) ≤ 52 := by
    by_contra hcon
    push_neg at hcon
    have hspec := (floorLog2_spec (n : ℚ) hpos).1
    have hbig : (2 : ℚ) ^ (53 : ℕ) ≤ (n : ℚ) := by
      rw [← zpow_natCast (2 : ℚ) 53]
      exact le_trans (zpow_le_zpow_right₀ (by norm_num) (by omega)) hspec
    have : (2 : Int) ^ 53 ≤ n := by exact_mod_cast hbig
    omega
  have hnn : (52 : ℤ) - floorLog2 (n : ℚ) = (((52 - floorLog2 (n : ℚ)).toNat : ℕ) : ℤ) := by
    omega
  apply round64Pos_eq_self _ (n * 2 ^ (52 - floorLog2 (n : ℚ)).toNat)
  push_cast
  rw [← zpow_natCast (2 : ℚ) (52 - floorLog2 (n : ℚ)).toNat, ← hnn]

/-- In the exactly-representable range (both operands below `2^53`) the
float64 ceiling computation agrees with the exact integer ceiling. -/
theorem ceilDiv_eq_ceil (t s : Int) (ht1 : 1 ≤ t) (ht2 : t < 2 ^ 53)
    (hs1 : 1 ≤ s) (hs2 : s < 2 ^ 53) :
    ceilDiv t s = ⌈(t : ℚ) / (s : ℚ)⌉ := by
  have ht0 : (0 : ℚ) < (t : ℚ) := by
    have : (1 : ℚ) ≤ (t : ℚ) := by exact_mod_cast ht1
    linarith
  have hs0 : (0 : ℚ) < (s : ℚ) := by
    have : (1 : ℚ) ≤ (s : ℚ) := by exact_mod_cast hs1
    linarith
  unfold ceilDiv
  rw [round64_intCast t ht1 ht2, round64_intCast s hs1 hs2]
  set x : ℚ := (t : ℚ) / (s : ℚ) with hxdef
  have hxpos : 0 < x := div_pos ht0 hs0
  by_cases hint : ((⌊x⌋ : ℚ) = x)
  · have hj1 : 1 ≤ ⌊x⌋ := by
      have hq : (0 : ℚ) < (⌊x⌋ : ℚ) := by rw [hint]; exact hxpos
      have : (0 : ℤ) < ⌊x⌋ := by exact_mod_cast hq
      omega
    have hj2 : ⌊x⌋ < 2 ^ 53 := by
      have hxle : x ≤ (t : ℚ) := by
        rw [hxdef]
        apply div_le_self ht0.le
        exact_mod_cast hs1
      have hq : (⌊x⌋ : ℚ) < (((2 : Int) ^ 53 : Int) : ℚ) := by
        rw [hint]
        calc x ≤ (t : ℚ) := hxle
          _ < (((2 : Int) ^ 53 : Int) : ℚ) := by exact_mod_cast ht2
      exact_mod_cast hq
    rw [← hint, round64_intCast _ hj1 hj2]
  · rw [round64_of_pos x hxpos]
    have hjlt : (⌊x⌋ : ℚ) < x := lt_of_le_of_ne (Int.floor_le x) hint
    have hjgt : x < (⌊x⌋ : ℚ) + 1 := Int.lt_floor_add_one x
    have hts : x * (s : ℚ) = (t : ℚ) := by
      rw [hxdef]
      field_simp
    have hlow : (⌊x⌋ : ℚ) + 1 / (s : ℚ) ≤ x := by
      have h1 : (s : ℚ) * (⌊x⌋ : ℚ) < (t : ℚ) := by
        calc (s : ℚ) * (⌊x⌋ : ℚ) < (s : ℚ) * x := mul_lt_mul_of_pos_left hjlt hs0
          _ = (t : ℚ) := by rw [← hts]; ring
      have h2 : s * ⌊x⌋ + 1 ≤ t := by
        have : s * ⌊x⌋ < t := by exact_mod_cast h1
        omega
      have h3 : (s : ℚ) * (⌊x⌋ : ℚ) + 1 ≤ (t : ℚ) := by exact_mod_cast h2
      rw [hxdef, le_div_iff₀ hs0]
      have hexp : ((⌊x⌋ : ℚ) + 1 / (s : ℚ)) * (s : ℚ) = (s : ℚ) * (⌊x⌋ : ℚ) + 1 := by
        field_simp
        ring
      rw [hexp]
      exact h3
    have hhigh : x ≤ (⌊x⌋ : ℚ) + 1 - 1 / (s : ℚ) := by
      have h1 : (t : ℚ) < (s : ℚ) * ((⌊x⌋ : ℚ) + 1) := by
        calc (t : ℚ) = (s : ℚ) * x := by rw [← hts]; ring
          _ < (s : ℚ) * ((⌊x⌋ : ℚ) + 1) := mul_lt_mul_of_pos_left hjgt hs0
      have h2 : t + 1 ≤ s * (⌊x⌋ + 1) := by
        have hq : (t : ℚ) < ((s * (⌊x⌋ + 1) : ℤ) : ℚ) := by push_cast; linarith
        have : t < s * (⌊x⌋ + 1) := by exact_mod_cast hq
        omega
      have h3 : (t : ℚ) + 1 ≤ (s : ℚ) * ((⌊x⌋ : ℚ) + 1) := by
        exact_mod_cast h2
      rw [hxdef, div_le_iff₀ hs0]
      have hexp : ((⌊x⌋ : ℚ) + 1 - 1 / (s : ℚ)) * (s : ℚ) =
          (s : ℚ) * ((⌊x⌋ : ℚ) + 1) - 1 := by
        field_simp
        ring
      rw [hexp]
      linarith
    have herr := abs_le.mp (round64Pos_err x)
    have hkey : (2 : ℚ) ^ (floorLog2 x - 53) < 1 / (s : ℚ) := by
      have hk1 := (floorLog2_spec x hxpos).1
      rw [hxdef] at hk1
      have h1 : (2 : ℚ) ^ (floorLog2 x) * (s : ℚ) ≤ (t : ℚ) := (le_div_iff₀ hs0).mp hk1
      have h2 : (2 : ℚ) ^ (floorLog2 x) * (s : ℚ) < (2 : ℚ) ^ (53 : ℤ) := by
        calc (2 : ℚ) ^ (floorLog2 x) * (s : ℚ) ≤ (t : ℚ) := h1
          _ < (((2 : Int) ^ 53 : Int) : ℚ) := by exact_mod_cast ht2
          _ = (2 : ℚ) ^ (53 : ℤ) := by norm_num
      have h3 : (2 : ℚ) ^ (floorLog2 x - 53) * (s : ℚ) < 1 := by
        have hpos53 : (0 : ℚ) < (2 : ℚ) ^ (53 : ℤ) := zpow_pos (by norm_num) _
        have hrw : (2 : ℚ) ^ (floorLog2 x - 53) * (s : ℚ) =
            (2 : ℚ) ^ (floorLog2 x) * (s : ℚ) / (2 : ℚ) ^ (53 : ℤ) := by
          rw [show floorLog2 x - 53 = floorLog2 x + (-53) by ring,
            zpow_add₀ (two_ne_zero (α := ℚ)), zpow_neg]
          ring
        rw [hrw, div_lt_one hpos53]
        exact h2
      rw [lt_div_iff₀ hs0]
      exact h3
    have hql : (⌊x⌋ : ℚ) < round64Pos x := by
      linarith [hlow, herr.1, hkey]
    have hqh : round64Pos x < (⌊x⌋ : ℚ) + 1 := by
      linarith [hhigh, herr.2, hkey]
    have hceilq : ⌈round64Pos x⌉ = ⌊x⌋ + 1 := by
      rw [Int.ceil_eq_iff]
      constructor
      · push_cast
        linarith
      · push_cast
        linarith
    have hceilx : ⌈x⌉ = ⌊x⌋ + 1 := by
      rw [Int.ceil_eq_iff]
      constructor
      · push_cast
        linarith
      · push_cast
        linarith
    rw [hceilq, hceilx]

/-! ### Claim C1 -/

/-- Claim C1 counterexample: the Filters value with `Page = 0` and
`PageSize = 10` has `Page < 1`, yet normalization yields
`(Page = 1, PageSize = 10)`, which differs from the default Filters
`(1, 5)`: only the invalid field falls back to its default. -/
theorem c1_validate_counterexample :
    (Filters.mk 0 10).page < 1 ∧
    Filters.validate (Filters.mk 0 10) defaultFilters = Filters.mk 1 10 ∧
    Filters.validate (Filters.mk 0 10) defaultFilters ≠ defaultFilters := by
  decide

/-- Claim C1, amended: normalization replaces each out-of-range field
independently with its default (`Page → 1`, `PageSize → 5`) and keeps
in-range fields; the result equals the default Filters when both
`Page < 1` and `PageSize < 1` hold. -/
theorem c1_validate_fieldwise (f : Filters) :
    (Filters.validate f defaultFilters).page = (if f.page < 1 then 1 else f.page) ∧
    (Filters.validate f defaultFilters).pageSize = (if f.pageSize < 1 then 5 else f.pageSize) ∧
    (f.page < 1 → f.pageSize < 1 → Filters.validate f defaultFilters = defaultFilters) := by
  refine ⟨rfl, rfl, ?_⟩
  intro hp hs
  simp [Filters.validate, defaultFilters, hp, hs]

/-- Witness for C1's amended theorem at the concrete Filters
`(Page = 0, PageSize = -2)`, both fields invalid. -/
theorem c1_validate_fieldwise_witness :
    Filters.validate (Filters.mk 0 (-2)) defaultFilters = defaultFilters :=
  (c1_validate_fieldwise (Filters.mk 0 (-2))).2.2 (by decide) (by decide)

/-! ### Claim C8 -/

/-- Claim C8: `calculateMetadata` on zero total records returns the
all-zero Metadata regardless of the requested page and size. -/
theorem c8_zero_total_zero_metadata (page pageSize : Int) :
    calculateMetadata 0 page pageSize = Metadata.zero := by
  simp [calculateMetadata]

/-! ### Claim C5 -/

theorem round64_pow53_add_one :
    round64 ((2 : ℚ) ^ (53 : ℕ) + 1) = (2 : ℚ) ^ (53 : ℕ) := by
  have hpos : (0 : ℚ) < (2 : ℚ) ^ (53 : ℕ) + 1 := by positivity
  have hk : floorLog2 ((2 : ℚ) ^ (53 : ℕ) + 1) = 53 :=
    floorLog2_eq _ hpos 53 (by norm_num) (by norm_num)
  rw [round64_of_pos _ hpos]
  unfold round64Pos
  rw [hk]
  have hy : ((2 : ℚ) ^ (53 : ℕ) + 1) * 2 ^ ((52 : ℤ) - 53) = (2 : ℚ) ^ (52 : ℕ) + 1 / 2 := by
    rw [show (52 : ℤ) - 53 = -1 by ring, zpow_neg, zpow_one]
    norm_num
  have hfloor : ⌊(2 : ℚ) ^ (52 : ℕ) + 1 / 2⌋ = 2 ^ 52 := by
    rw [Int.floor_eq_iff]
    constructor
    · push_cast
      norm_num
    · push_cast
      norm_num
  have hfract : Int.fract ((2 : ℚ) ^ (52 : ℕ) + 1 / 2) = 1 / 2 := by
    unfold Int.fract
    rw [hfloor]
    push_cast
    ring
  have hrnd : rndEven ((2 : ℚ) ^ (52 : ℕ) + 1 / 2) = 2 ^ 52 := by
    unfold rndEven
    rw [hfract, hfloor]
    norm_num
  rw [hy, hrnd]
  rw [show (53 : ℤ) - 52 = 1 by ring, zpow_one]
  push_cast
  ring

theorem round64_pow53 : round64 ((2 : ℚ) ^ (53 : ℕ)) = (2 : ℚ) ^ (53 : ℕ) := by
  have hpos : (0 : ℚ) < (2 : ℚ) ^ (53 : ℕ) := by positivity
  have hk : floorLog2 ((2 : ℚ) ^ (53 : ℕ)) = 53 :=
    floorLog2_eq _ hpos 53 (by norm_num) (by norm_num)
  rw [round64_of_pos _ hpos]
  apply round64Pos_eq_self _ (2 ^ 52)
  rw [hk, show (52 : ℤ) - 53 = -1 by ring, zpow_neg, zpow_one]
  push_cast
  norm_num

/-- Claim C5 counterexample: at `total = 2^53 + 1`, `size = 1` — inside
the claim's `total ≥ 1, size ≥ 1` range — the float64 conversion rounds
`2^53 + 1` to `2^53` (tie to the even significand), so the code's
LastPage is `2^53` while the exact ceiling of `total / size` is
`2^53 + 1`. -/
theorem c5_lastPage_counterexample :
    (1 : Int) ≤ 2 ^ 53 + 1 ∧
    (calculateMetadata (2 ^ 53 + 1) 1 1).lastPage = 2 ^ 53 ∧
    ⌈(((2 : Int) ^ 53 + 1 : Int) : ℚ) / ((1 : Int) : ℚ)⌉ = 2 ^ 53 + 1 ∧
    (2 : Int) ^ 53 ≠ 2 ^ 53 + 1 := by
  refine ⟨by norm_num, ?_, ?_, by norm_num⟩
  · have hlast : (calculateMetadata (2 ^ 53 + 1) 1 1).lastPage = ceilDiv (2 ^ 53 + 1) 1 := by
      unfold calculateMetadata
      rw [if_neg (by norm_num : ¬((2 : Int) ^ 53 + 1 = 0))]
    rw [hlast]
    unfold ceilDiv
    rw [round64_intCast 1 (by norm_num) (by norm_num)]
    rw [show (((2 : Int) ^ 53 + 1 : Int) : ℚ) = (2 : ℚ) ^ (53 : ℕ) + 1 by push_cast; ring]
    rw [round64_pow53_add_one]
    rw [show ((1 : Int) : ℚ) = 1 by norm_num, div_one]
    rw [round64_pow53]
    rw [show (2 : ℚ) ^ (53 : ℕ) = (((2 : Int) ^ 53 : Int) : ℚ) by push_cast; ring]
    rw [Int.ceil_intCast]
  · rw [show ((1 : Int) : ℚ) = 1 by norm_num, div_one, Int.ceil_intCast]

/-- Claim C5, amended: for `1 ≤ total < 2^53` and `1 ≤ size < 2^53` —
the range where the binary64 computation is exact — and any page,
`calculateMetadata` fills current page, page size, first page = 1 and
total records verbatim, and the last page is the exact ceiling of
`total / size`.  Outside that range the float64 rounding can change the
result (see the counterexample at `total = 2^53 + 1`). -/
theorem c5_calculateMetadata_fields (t p s : Int) (ht : 1 ≤ t) (ht2 : t < 2 ^ 53)
    (hs : 1 ≤ s) (hs2 : s < 2 ^ 53) :
    (calculateMetadata t p s).currentPage = p ∧
    (calculateMetadata t p s).pageSize = s ∧
    (calculateMetadata t p s).firstPage = 1 ∧
    (calculateMetadata t p s).totalRecords = t ∧
    (calculateMetadata t p s).lastPage = ⌈(t : ℚ) / (s : ℚ)⌉ := by
  have ht0 : ¬t = 0 := by omega
  unfold calculateMetadata
  rw [if_neg ht0]
  exact ⟨rfl, rfl, rfl, rfl, ceilDiv_eq_ceil t s ht ht2 hs hs2⟩

/-- Witness for C5's amended theorem at `total = 7`, `page = 1`,
`size = 5`. -/
theorem c5_calculateMetadata_fields_witness :
    (calculateMetadata 7 1 5).lastPage = ⌈((7 : Int) : ℚ) / ((5 : Int) : ℚ)⌉ :=
  (c5_calculateMetadata_fields 7 1 5 (by norm_num) (by norm_num) (by norm_num)
    (by norm_num)).2.2.2.2

/-! ### Claim C4 -/

/-- Claim C4 counterexample: the normalized Filters
`(Page = 2^62 + 1, PageSize = 2)` has the mathematical offset `2^63`,
which is not representable; the code's offset is the wrapped value
`-2^63`, not the claimed clamp to the maximum representable integer,
and it is negative. -/
theorem c4_offset_counterexample :
    (1 : Int) ≤ (Filters.mk (2 ^ 62 + 1) 2).page ∧
    (1 : Int) ≤ (Filters.mk (2 ^ 62 + 1) 2).pageSize ∧
    ¬InRange64 (((2 : Int) ^ 62 + 1 - 1) * 2) ∧
    Filters.offset (Filters.mk (2 ^ 62 + 1) 2) = -(2 ^ 63) ∧
    Filters.offset (Filters.mk (2 ^ 62 + 1) 2) ≠ maxInt64 ∧
    Filters.offset (Filters.mk (2 ^ 62 + 1) 2) < 0 := by
  decide

/-- Claim C4, amended: `limit` is the page size, and `offset` is the
64-bit wrap-around of `(Page - 1) * PageSize` — the `min` clamp against
`math.MaxInt` never changes the value, so an overflowing product wraps
(possibly to a negative offset) instead of being clamped.  The offset
equals the exact product whenever `Page - 1` and the product are
representable, and for normalized in-range filters with a representable
product it lies in `[0, maxInt64]`. -/
theorem c4_limit_offset (f : Filters) :
    f.limit = f.pageSize ∧
    f.offset = wrap64 (wrap64 (f.page - 1) * f.pageSize) ∧
    (InRange64 (f.page - 1) → InRange64 ((f.page - 1) * f.pageSize) →
      f.offset = (f.page - 1) * f.pageSize) ∧
    (1 ≤ f.page → 1 ≤ f.pageSize → InRange64 f.page →
      InRange64 ((f.page - 1) * f.pageSize) →
      0 ≤ f.offset ∧ f.offset ≤ maxInt64) := by
  have hmin : f.offset = wrap64 (wrap64 (f.page - 1) * f.pageSize) := by
    unfold Filters.offset
    have := wrap64_mem_range (wrap64 (f.page - 1) * f.pageSize)
    unfold InRange64 at this
    unfold maxInt64
    omega
  have hexact : InRange64 (f.page - 1) → InRange64 ((f.page - 1) * f.pageSize) →
      f.offset = (f.page - 1) * f.pageSize := by
    intro h1 h2
    rw [hmin, wrap64_eq_self h1, wrap64_eq_self h2]
  refine ⟨rfl, hmin, hexact, ?_⟩
  intro hp hs hpr hprod
  have h1 : InRange64 (f.page - 1) := by
    unfold InRange64 at hpr ⊢
    omega
  rw [hexact h1 hprod]
  unfold InRange64 at hprod
  constructor
  · exact mul_nonneg (by omega) (by omega)
  · unfold maxInt64
    omega

/-- Witness for C4's amended theorem at the concrete Filters
`(Page = 3, PageSize = 5)`: offset is exactly `(3 - 1) * 5 = 10`,
nonnegative and below the clamp. -/
theorem c4_limit_offset_witness :
    Filters.offset (Filters.mk 3 5) = ((Filters.mk 3 5).page - 1) * (Filters.mk 3 5).pageSize ∧
    0 ≤ Filters.offset (Filters.mk 3 5) ∧ Filters.offset (Filters.mk 3 5) ≤ maxInt64 :=
  ⟨(c4_limit_offset (Filters.mk 3 5)).2.2.1 (by decide) (by decide),
   (c4_limit_offset (Filters.mk 3 5)).2.2.2 (by decide) (by decide) (by decide) (by decide)⟩

/-! ### Claim C3 -/

theorem leadFails_attemptedCycles (rs : List FetchResult) :
    ∀ retry : Nat, retry ≤ 4 →
      leadFails (attemptedCycles retry 3 rs) + retry ≤ 5 := by
  induction rs with
  | nil =>
    intro retry h
    simp [attemptedCycles, leadFails]
    omega
  | cons r rs ih =>
    intro retry h
    cases r with
    | success items =>
      simp [attemptedCycles, parsingStep, leadFails]
      omega
    | failure =>
      by_cases hr : retry > 3
      · simp [attemptedCycles, parsingStep, if_pos hr, leadFails]
        omega
      · simp only [attemptedCycles, parsingStep, if_neg hr, leadFails]
        have := ih (retry + 1) (by omega)
        omega

theorem maxFailStreak_attemptedCycles (rs : List FetchResult) :
    ∀ retry : Nat, retry ≤ 4 →
      maxFailStreak (attemptedCycles retry 3 rs) ≤ 5 := by
  induction rs with
  | nil =>
    intro retry h
    simp [attemptedCycles, maxFailStreak]
  | cons r rs ih =>
    intro retry h
    cases r with
    | success items =>
      simp only [attemptedCycles, parsingStep, maxFailStreak, leadFails]
      have := ih 0 (by omega)
      omega
    | failure =>
      by_cases hr : retry > 3
      · simp [attemptedCycles, parsingStep, if_pos hr, maxFailStreak, leadFails]
      · simp only [attemptedCycles, parsingStep, if_neg hr, maxFailStreak, leadFails]
        have h1 := leadFails_attemptedCycles rs (retry + 1) (by omega)
        have h2 := ih (retry + 1) (by omega)
        omega

theorem attemptedCycles_replicate (n : Nat) :
    ∀ retry : Nat, retry ≤ 4 →
      (attemptedCycles retry 3 (List.replicate n .failure)).length = min n (5 - retry) := by
  induction n with
  | zero =>
    intro retry h
    simp [attemptedCycles]
  | succ n ih =>
    intro retry h
    by_cases hr : retry > 3
    · simp [List.replicate_succ, attemptedCycles, parsingStep, if_pos hr]
      omega
    · simp only [List.replicate_succ, attemptedCycles, parsingStep, if_neg hr,
        List.length_cons, ih (retry + 1) (by omega)]
      omega

/-- Claim C3 counterexample: after the fourth consecutive failure the
counter stands at 4, already above the ceiling 3, yet the next failing
cycle still backs off (`parsingStep 3 3` on the fourth failure yields
`some 4`, a continue, not a return), and on an all-failure stream the
job performs five consecutive failing attempts — the fifth one (counter
4 > 3) is the one that terminates the job, without incrementing the
counter. -/
theorem c3_retry_counterexample :
    parsingStep 3 3 FetchResult.failure = some 4 ∧
    parsingStep 4 3 FetchResult.failure = none ∧
    (attemptedCycles 0 3 (List.replicate 9 FetchResult.failure)).length = 5 ∧
    maxFailStreak (attemptedCycles 0 3 (List.replicate 9 FetchResult.failure)) = 5 := by
  decide

/-- Claim C3, amended: in `Service.ParsingJob`'s retry loop (counter
starts at 0, limit 3), a failing cycle first compares the counter with
the ceiling: while the counter is at most 3 it is incremented and the
job backs off; once the counter exceeds 3 — which happens after the
fourth consecutive failure — the next failing cycle returns without
incrementing.  A successful cycle resets the counter to zero.
Consequently the job performs at most 5 consecutive failing attempts
(never a 6th), and on an all-failures environment exactly `min n 5`
attempts are performed. -/
theorem c3_parsingJob_retry_policy :
    (∀ retry : Nat, retry ≤ 3 → parsingStep retry 3 .failure = some (retry + 1)) ∧
    (∀ retry : Nat, 3 < retry → parsingStep retry 3 .failure = none) ∧
    (∀ (retry : Nat) (items : List NewsItem), parsingStep retry 3 (.success items) = some 0) ∧
    (∀ rs : List FetchResult, maxFailStreak (attemptedCycles 0 3 rs) ≤ 5) ∧
    (∀ n : Nat, (attemptedCycles 0 3 (List.replicate n .failure)).length = min n 5) := by
  refine ⟨?_, ?_, ?_, ?_, ?_⟩
  · intro retry h
    simp only [parsingStep]
    rw [if_neg (by omega)]
  · intro retry h
    simp only [parsingStep]
    rw [if_pos (by omega)]
  · intro retry items
    rfl
  · intro rs
    exact maxFailStreak_attemptedCycles rs 0 (by omega)
  · intro n
    simpa using attemptedCycles_replicate n 0 (by omega)

/-- Witness for C3's amended theorem at concrete counters and a run of
nine straight failures: exactly five attempts happen. -/
theorem c3_parsingJob_retry_policy_witness :
    parsingStep 0 3 .failure = some 1 ∧
    parsingStep 4 3 .failure = none ∧
    parsingStep 2 3 (.success []) = some 0 ∧
    maxFailStreak (attemptedCycles 0 3 (List.replicate 9 .failure)) ≤ 5 ∧
    (attemptedCycles 0 3 (List.replicate 9 .failure)).length = min 9 5 :=
  ⟨c3_parsingJob_retry_policy.1 0 (by decide),
   c3_parsingJob_retry_policy.2.1 4 (by decide),
   c3_parsingJob_retry_policy.2.2.1 2 [],
   c3_parsingJob_retry_policy.2.2.2.1 (List.replicate 9 .failure),
   c3_parsingJob_retry_policy.2.2.2.2 9⟩

/-! ### Claim C6 -/

theorem saveLoopAux_spec (l : List (NewsItem × CreateResult)) :
    ∀ (saved skipped : Nat) (published : List String),
      saveLoopAux saved skipped published l =
        (saved + l.countP (fun p => decide (p.2 = CreateResult.ok)),
         skipped + l.countP (fun p => decide (p.2 = CreateResult.alreadyExists)),
         published ++ (l.filter (fun p => decide (p.2 = CreateResult.ok))).map
           (fun p => p.1.link)) := by
  induction l with
  | nil =>
    intro saved skipped published
    simp [saveLoopAux]
  | cons hd tl ih =>
    intro saved skipped published
    obtain ⟨item, res⟩ := hd
    cases res with
    | ok =>
      simp only [saveLoopAux, ih, List.countP_cons, List.filter_cons]
      simp
      omega
    | alreadyExists =>
      simp only [saveLoopAux, ih, List.countP_cons, List.filter_cons]
      simp
      omega
    | otherError =>
      simp only [saveLoopAux, ih, List.countP_cons, List.filter_cons]
      simp

theorem countP_ok_add_conflict_le (l : List (NewsItem × CreateResult)) :
    l.countP (fun p => decide (p.2 = CreateResult.ok)) +
      l.countP (fun p => decide (p.2 = CreateResult.alreadyExists)) ≤ l.length := by
  induction l with
  | nil => simp
  | cons hd tl ih =>
    obtain ⟨item, res⟩ := hd
    cases res <;> simp only [List.countP_cons, List.length_cons] <;> simp <;> omega

/-- Claim C6: in the save loop over decoded candidates, `saved` counts
exactly the successful creates and `skipped` exactly the
already-exists conflicts; the links published to the queue are exactly
the links of the successfully created items in order (so the number of
publish attempts equals `saved`); `saved + skipped` never exceeds the
number of candidates; and a conflict at the head of the list only
increments `skipped` while the rest of the list is still processed —
a conflict never aborts the loop or fails the cycle. -/
theorem c6_conflict_skipped_continues (l : List (NewsItem × CreateResult)) :
    (saveLoop l).1 = l.countP (fun p => decide (p.2 = CreateResult.ok)) ∧
    (saveLoop l).2.1 = l.countP (fun p => decide (p.2 = CreateResult.alreadyExists)) ∧
    (saveLoop l).2.2 =
      (l.filter (fun p => decide (p.2 = CreateResult.ok))).map (fun p => p.1.link) ∧
    (saveLoop l).2.2.length = (saveLoop l).1 ∧
    (saveLoop l).1 + (saveLoop l).2.1 ≤ l.length ∧
    (∀ (item : NewsItem) (rest : List (NewsItem × CreateResult)),
      l = (item, CreateResult.alreadyExists) :: rest →
        saveLoop l = ((saveLoop rest).1, (saveLoop rest).2.1 + 1, (saveLoop rest).2.2)) := by
  have hspec : ∀ (m : List (NewsItem × CreateResult)),
      saveLoop m =
        (m.countP (fun p => decide (p.2 = CreateResult.ok)),
         m.countP (fun p => decide (p.2 = CreateResult.alreadyExists)),
         (m.filter (fun p => decide (p.2 = CreateResult.ok))).map (fun p => p.1.link)) := by
    intro m
    unfold saveLoop
    rw [saveLoopAux_spec]
    simp
  refine ⟨by rw [hspec], by rw [hspec], by rw [hspec], ?_, ?_, ?_⟩
  · rw [hspec]
    simp [List.length_map, ← List.countP_eq_length_filter]
  · rw [hspec]
    exact countP_ok_add_conflict_le l
  · intro item rest hl
    subst hl
    rw [hspec, hspec]
    simp [List.countP_cons, List.filter_cons]

/-- Witness for C6's conflict clause: a two-candidate batch whose head
create conflicts is processed to the end — the conflict adds one to
`skipped` and the tail is handled as usual. -/
theorem c6_conflict_skipped_continues_witness :
    saveLoop [(NewsItem.mk 1 "a" "l1" 0 "" "", CreateResult.alreadyExists),
              (NewsItem.mk 2 "b" "l2" 0 "" "", CreateResult.ok)] =
      ((saveLoop [(NewsItem.mk 2 "b" "l2" 0 "" "", CreateResult.ok)]).1,
       (saveLoop [(NewsItem.mk 2 "b" "l2" 0 "" "", CreateResult.ok)]).2.1 + 1,
       (saveLoop [(NewsItem.mk 2 "b" "l2" 0 "" "", CreateResult.ok)]).2.2) :=
  (c6_conflict_skipped_continues _).2.2.2.2.2 (NewsItem.mk 1 "a" "l1" 0 "" "")
    [(NewsItem.mk 2 "b" "l2" 0 "" "", CreateResult.ok)] rfl

/-! ### Claim C7 -/

/-- Claim C7 counterexample: status 204 is a 2xx status and the body is
readable, yet `getContents` fails with the status-code error — the code
demands status exactly 200, not any 2xx. -/
theorem c7_getContents_counterexample :
    (200 : Int) ≤ 204 ∧ (204 : Int) ≤ 299 ∧
    getContents (.response 204 (.ok "hello")) = .error "unexpected status code: 204" ∧
    getContents (.response 204 (.ok "hello")) ≠ .ok "hello" := by
  decide

/-- Claim C7, amended: `getContents` fails exactly on a request-creation
error, a transport error, a status code different from 200, or a
body-read error, each time carrying the cause; it succeeds with the raw
body exactly on a status-200 response with a readable body. -/
theorem c7_getContents_cases :
    (∀ c, getContents (.requestError c) = .error ("failed to create request: " ++ c)) ∧
    (∀ c, getContents (.transportError c) = .error ("failed to get feed: " ++ c)) ∧
    (∀ (status : Int) (bodyRead : Except String String), status ≠ 200 →
      getContents (.response status bodyRead) =
        .error ("unexpected status code: " ++ toString status)) ∧
    (∀ c, getContents (.response 200 (.error c)) = .error ("failed to read body: " ++ c)) ∧
    (∀ body, getContents (.response 200 (.ok body)) = .ok body) := by
  refine ⟨fun c => rfl, fun c => rfl, ?_, fun c => rfl, fun body => rfl⟩
  intro status bodyRead h
  simp [getContents, h]

/-- Witness for C7's amended theorem at the concrete status 404. -/
theorem c7_getContents_cases_witness :
    getContents (.response 404 (.ok "not found")) =
      .error ("unexpected status code: " ++ toString (404 : Int)) :=
  c7_getContents_cases.2.2.1 404 (.ok "not found") (by decide)

/-! ### Claim C9 -/

/-- Claim C9: extraction is deterministic — two runs of
`extractEnrichments` on the same HTML give the same mapping — and the
mapping is independent of the order in which the two table entries are
visited (the Go map's iteration order is arbitrary): looking up any key
gives the same value whether the table is traversed forward or
reversed. -/
theorem c9_extract_deterministic :
    (∀ html : String, extractEnrichments html = extractEnrichments html) ∧
    (∀ (html key : String),
      (extractEnrichmentsWith enrichmentTable html).lookup key =
      (extractEnrichmentsWith enrichmentTable.reverse html).lookup key) := by
  refine ⟨fun _ => rfl, ?_⟩
  intro html key
  have hne : ¬((key == "description") = true ∧ (key == "image") = true) := by
    rintro ⟨h1, h2⟩
    rw [beq_iff_eq] at h1 h2
    subst h1
    exact absurd h2 (by decide)
  cases h1 : findCapture descriptionPattern html.toList <;>
    cases h2 : findCapture imagePattern html.toList <;>
      simp only [extractEnrichmentsWith, enrichmentTable, List.reverse_cons,
        List.reverse_nil, List.nil_append, List.cons_append, List.filterMap_cons,
        h1, h2, Option.map_none', Option.map_some', List.filterMap_nil]
  case some.some v1 v2 =>
    cases hk1 : (key == "description") <;> cases hk2 : (key == "image") <;>
      simp [List.lookup, hk1, hk2]
    exact absurd ⟨hk1, hk2⟩ hne

/-! ### Claim C10 -/

theorem tryDrops_capture_ne_nil {f : List Char → Option (Option (List Char))}
    (hf : ∀ t cap, f t = some (some cap) → cap ≠ []) (b : Bool) (s : List Char) :
    ∀ (k : Nat) (cap : List Char), k ≤ s.length →
      tryDrops b f s k = some (some cap) → cap ≠ [] := by
  intro k
  induction k with
  | zero =>
    intro cap _ h
    simp [tryDrops] at h
  | succ k ih =>
    intro cap hk h
    simp only [tryDrops] at h
    cases hfk : f (s.drop (k + 1)) with
    | none =>
      rw [hfk] at h
      exact ih cap (by omega) h
    | some res =>
      rw [hfk] at h
      cases b with
      | false =>
        have hres : res = some cap := by
          simpa using h
        exact hf (s.drop (k + 1)) cap (by rw [hfk, hres])
      | true =>
        have hcap : s.take (k + 1) = cap := by
          simpa using h
        intro hnil
        rw [hnil] at hcap
        rcases List.take_eq_nil_iff.mp hcap with h0 | h0
        · omega
        · subst h0
          simp at hk

theorem matchSeq_capture_ne_nil :
    ∀ (ps : List RexPiece) (s : List Char) (cap : List Char),
      matchSeq ps s = some (some cap) → cap ≠ [] := by
  intro ps
  induction ps with
  | nil =>
    intro s cap h
    simp [matchSeq] at h
  | cons piece ps ih =>
    intro s cap h
    cases piece with
    | lit w =>
      simp only [matchSeq] at h
      split at h
      · exact ih _ cap h
      · exact absurd h (by simp)
    | classPlus c =>
      simp only [matchSeq] at h
      exact tryDrops_capture_ne_nil (fun t cp hcp => ih t cp hcp) false s
        ((s.takeWhile (fun x => x ≠ c)).length) cap
        (List.Sublist.length_le (List.takeWhile_sublist _)) h
    | capturePlus c =>
      simp only [matchSeq] at h
      exact tryDrops_capture_ne_nil (fun t cp hcp => ih t cp hcp) true s
        ((s.takeWhile (fun x => x ≠ c)).length) cap
        (List.Sublist.length_le (List.takeWhile_sublist _)) h

theorem findCapture_ne_nil :
    ∀ (s : List Char) (ps : List RexPiece) (cap : List Char),
      findCapture ps s = some cap → cap ≠ [] := by
  intro s
  induction s with
  | nil =>
    intro ps cap h
    simp only [findCapture] at h
    cases hm : matchSeq ps [] with
    | none =>
      rw [hm] at h
      exact absurd (show (none : Option (List Char)) = some cap from h) (by simp)
    | some c =>
      rw [hm] at h
      have h' : c = some cap := h
      exact matchSeq_capture_ne_nil ps [] cap (by rw [hm, h'])
  | cons ch rest ih =>
    intro ps cap h
    simp only [findCapture] at h
    cases hm : matchSeq ps (ch :: rest) with
    | none =>
      rw [hm] at h
      exact ih ps cap h
    | some c =>
      rw [hm] at h
      have h' : c = some cap := h
      exact matchSeq_capture_ne_nil ps (ch :: rest) cap (by rw [hm, h'])

/-- Claim C10: the mapping produced by `extractEnrichments` only ever
holds the keys `description` and `image`, every value it holds is a
non-empty string, and the returned error is always nil. -/
theorem c10_extract_shape (html : String) :
    (extractEnrichments html).2 = none ∧
    ∀ kv : String × String, kv ∈ (extractEnrichments html).1 →
      (kv.1 = "description" ∨ kv.1 = "image") ∧ kv.2 ≠ "" := by
  refine ⟨rfl, ?_⟩
  intro kv hmem
  simp only [extractEnrichments, extractEnrichmentsWith] at hmem
  rw [List.mem_filterMap] at hmem
  obtain ⟨a, ha, hfa⟩ := hmem
  rw [Option.map_eq_some'] at hfa
  obtain ⟨cap, hcap, hkv⟩ := hfa
  have hcapne : cap ≠ [] := findCapture_ne_nil html.toList a.2 cap hcap
  subst hkv
  constructor
  · simp only [enrichmentTable, List.mem_cons, List.not_mem_nil, or_false] at ha
    rcases ha with ha | ha <;> rw [ha] <;> simp
  · simp only [ne_eq]
    intro hs
    apply hcapne
    have : (String.mk cap).data = ("" : String).data := by rw [hs]
    simpa using this

/-- Witness for C10 on a concrete document: the extracted pair is the
`description` key with the non-empty value `hi`. -/
theorem c10_extract_shape_witness :
    ((("description", "hi") : String × String).1 = "description" ∨
      (("description", "hi") : String × String).1 = "image") ∧
    (("description", "hi") : String × String).2 ≠ "" :=
  (c10_extract_shape "<meta name=\"description\" content=\"hi\">").2
    ("description", "hi") (by decide)

/-! ### Claim C2 -/

/-- Claim C2 counterexample: a stored item with non-empty `Description`
and `Image`, whose linked page fetch succeeds but returns HTML with no
matching meta tags, ends the enrichment step with both fields set back
to the empty string — Go map indexing yields `""` for the absent keys
and the store update persists the overwritten fields. -/
theorem c2_enrich_counterexample :
    (NewsItem.mk 1 "t" "http://x" 0 "old description" "http://img").description ≠ "" ∧
    (NewsItem.mk 1 "t" "http://x" 0 "old description" "http://img").image ≠ "" ∧
    EnrichNewsItem (NewsItem.mk 1 "t" "http://x" 0 "old description" "http://img")
      (.response 200 (.ok "<html></html>")) =
      .ok (NewsItem.mk 1 "t" "http://x" 0 "" "") := by
  decide

/-- Claim C2, amended: the Worker's enrichment step is an overwrite, not
additive-only.  After a successful fetch the stored item's
`Description` and `Image` are exactly `enrichments["description"]` and
`enrichments["image"]` — the extracted value when the pattern matched,
the empty string when it did not, regardless of what the fields held
before; prior values survive only when the fetch itself fails, because
the step then aborts before the store update. -/
theorem c2_enrich_overwrites (item : NewsItem) (body : String) :
    EnrichNewsItem item (.response 200 (.ok body)) =
      .ok { item with
              description := mapIndex (extractEnrichments body).1 "description",
              image := mapIndex (extractEnrichments body).1 "image" } ∧
    (∀ key, (extractEnrichments body).1.lookup key = none →
      mapIndex (extractEnrichments body).1 key = "") ∧
    (∀ c, EnrichNewsItem item (.transportError c) =
      .error ("failed to enrich news: " ++ ("failed to get enrichments: " ++
        ("failed to get enrichments: " ++ ("failed to get feed: " ++ c))))) := by
  refine ⟨rfl, ?_, fun c => rfl⟩
  intro key hk
  simp [mapIndex, hk]

/-- Witness for C2's amended theorem: on the page `<html></html>`
nothing matches, so the `description` lookup is absent and the field
written back is the empty string. -/
theorem c2_enrich_overwrites_witness :
    mapIndex (extractEnrichments "<html></html>").1 "description" = "" :=
  (c2_enrich_overwrites (NewsItem.mk 1 "t" "http://x" 0 "old description" "http://img")
    "<html></html>").2.1 "description" (by decide)
